import Mathlib

/-
Verification development for the ocifs repository.

The definitions below are a shallow embedding of the Go sources:
  - internal/store/image.go        (Image.Unify, isFinalized, inOpaqueDir)
  - internal/store/store.go        (Store.extractTar, Store.unpackLayer, Store.blobPath)
  - internal/store/layer.go        (Layer.Persist)
  - internal/unionfs/dir.go        (unionDir.Lookup, Readdir, Unlink, newDirInode)
  - internal/unionfs/file.go       (unionFile.Write, Read, Getattr, Open)
  - internal/unionfs/fs.go (Init)  and the WritableLayer (SetFile, DeleteFile,
    ListChildren, GetFile) from the store package.

Conventions of the embedding:
  - Go strings are Lean String values; the Go path helpers (path.Clean,
    path.Dir, path.Base, path.Join, strings.HasPrefix, strings.TrimPrefix,
    strings.Contains, strings.Split) are re-implemented below on the
    character list underlying a String, following the Go library semantics
    on linux (forward slash separators, no volume names).
  - Go maps are modelled either as association lists (when the source
    iterates over the map) or as functions into Option (when the source
    only queries membership).  Go map iteration order is unspecified, so
    theorems about iterating code quantify over the association list.
  - The on-disk state is a function from paths to file contents; regular
    byte contents and persisted JSON layer metadata are the two value
    forms.  json.Marshal is deterministic, so metadata equality is
    modelled as equality of the persisted entry list.
  - Machine integers (int64 sizes, offsets) are modelled as Int or Nat;
    no overflow is relevant to the claims checked here.
-/

namespace Ocifs

/-! ## Go string helpers -/

/-- strings.HasPrefix. -/
def strStarts (s pre : String) : Bool := pre.data.isPrefixOf s.data

/-- strings.HasSuffix. -/
def strEnds (s suf : String) : Bool := suf.data.isSuffixOf s.data

/-- strings.TrimPrefix. -/
def trimPfx (s pre : String) : String :=
  if strStarts s pre then ⟨s.data.drop pre.data.length⟩ else s

/-- strings.Contains(s, "/"). -/
def containsSlash (s : String) : Bool := s.data.contains '/'

/-- Byte-slicing a string from index n (Go s[n:] on ASCII data). -/
def strDrop (s : String) (n : Nat) : String := ⟨s.data.drop n⟩

/-- strings.Split(s, "/") on the underlying characters. -/
def splitChars : List Char → List (List Char)
  | [] => [[]]
  | c :: rest =>
    match splitChars rest with
    | [] => [[]]
    | h :: t => if c = '/' then [] :: h :: t else (c :: h) :: t

/-- The element loop of Go path.Clean: drop empty and dot segments,
resolve dotdot segments against the accumulator. -/
def cleanSegs (rooted : Bool) : List (List Char) → List (List Char) → List (List Char)
  | [], acc => acc.reverse
  | seg :: rest, acc =>
    if seg = [] ∨ seg = ['.'] then cleanSegs rooted rest acc
    else if seg = ['.', '.'] then
      match acc with
      | [] => if rooted then cleanSegs rooted rest [] else cleanSegs rooted rest [['.', '.']]
      | a :: as =>
        if a = ['.', '.'] then cleanSegs rooted rest (seg :: a :: as)
        else cleanSegs rooted rest as
    else cleanSegs rooted rest (seg :: acc)

/-- Go path.Clean (equals filepath.Clean on linux). -/
def goClean (p : String) : String :=
  if p.data = [] then "."
  else
    let rooted := p.data.head? = some '/'
    let segs := cleanSegs rooted (splitChars p.data) []
    let body := List.intercalate ['/'] segs
    if body = [] then (if rooted then "/" else ".")
    else if rooted then ⟨'/' :: body⟩ else ⟨body⟩

/-- Go path.Dir: everything up to and including the final slash, cleaned;
"." when the path holds no slash. -/
def goDir (p : String) : String :=
  goClean ⟨(p.data.reverse.dropWhile (fun c => c ≠ '/')).reverse⟩

/-- Go path.Base: the last element after trailing slashes are removed. -/
def goBase (p : String) : String :=
  if p.data = [] then "."
  else
    let r := p.data.reverse.dropWhile (fun c => c = '/')
    if r = [] then "/"
    else ⟨(r.takeWhile (fun c => c ≠ '/')).reverse⟩

/-- Go path.Join / filepath.Join over a list of elements: non-empty
elements joined by slashes, then cleaned; all empty gives the empty
string. -/
def goJoinMulti (elems : List String) : String :=
  let ne := elems.filter (fun e => e ≠ "")
  if ne.isEmpty then "" else goClean (String.intercalate "/" ne)

/-- Two-argument Go path.Join. -/
def goJoin (a b : String) : String := goJoinMulti [a, b]

/-! ## Data model: tar headers, files, layers (internal/store) -/

/-- The tar type flags the sources inspect (archive/tar). -/
inductive TypeFlag where
  | reg
  | dir
  | symlink
  | link
  | charDev
  | blockDev
  | fifo
  deriving DecidableEq

/-- The tar.Header fields the verified code paths read or write. -/
structure Header where
  name : String
  typeflag : TypeFlag := .reg
  mode : Int := 0
  uid : Int := 0
  gid : Int := 0
  size : Int := 0
  modTime : Nat := 0
  deriving DecidableEq

/-- store.File: a tar header plus the on-disk blob or content path. -/
structure File where
  hdr : Header
  path : String := ""
  deriving DecidableEq

/-- store.Layer as consumed by Unify: its ordered file list. -/
structure Layer where
  files : List File
  deriving DecidableEq

/-! ## Union flattener (internal/store/image.go) -/

/-- The whiteout name marker ".wh." (constant whiteoutPrefix in image.go). -/
def whiteout : String := ".wh."

/-- The opaque marker constant of image.go, built exactly as the source
builds it: whiteoutPrefix + whiteoutPrefix + "opq".  Note that this
yields ".wh..wh.opq", not the OCI marker ".wh..wh..opq". -/
def whiteoutOpaque : String := whiteout ++ whiteout ++ "opq"

/-- The parent walk shared by isFinalized and inOpaqueDir: repeatedly take
path.Dir until the root sentinels are reached.  Fuelled recursion; the
fuel used by the callers always suffices because every step strictly
shrinks the path until a sentinel appears. -/
def parentChain (fuel : Nat) (p : String) : List String :=
  match fuel with
  | 0 => []
  | fuel + 1 =>
    if p = "" ∨ p = "." ∨ p = "/" then []
    else
      let parent := goDir p
      if parent = p then []
      else parent :: parentChain fuel parent

/-- All parents visited by the loops of isFinalized / inOpaqueDir. -/
def ancestors (p : String) : List String := parentChain (p.length + 2) p

/-- image.go isFinalized: some ancestor is recorded with value true. -/
def isFinalized (fileMap : String → Option Bool) (p : String) : Bool :=
  (ancestors p).any (fun a => (fileMap a).getD false)

/-- image.go inOpaqueDir: some ancestor is in the opaque set. -/
def inOpaqueDir (opaqueDirs : String → Bool) (p : String) : Bool :=
  (ancestors p).any opaqueDirs

/-- Accumulator while one layer is processed: the global fileMap and
output, plus the layer-local opaque set (newOpaqueDirs in the source). -/
structure UnifyAcc where
  fileMap : String → Option Bool
  newOpaqueDirs : String → Bool
  out : List File

/-- State between layers: fileMap, merged opaque set, output so far. -/
structure UnifyState where
  fileMap : String → Option Bool
  opaqueDirs : String → Bool
  out : List File

/-- The body of the per-file loop of Image.Unify.  The source first cleans
the header name in place, dispatches opaque markers into the layer-local
set, strips tombstone markers, then applies the fileMap / ancestor
guards before recording and emitting. -/
def procFile (opaqueDirs : String → Bool) (acc : UnifyAcc) (f : File) : UnifyAcc :=
  let name := goClean f.hdr.name
  let baseName := goBase name
  let dirName := goDir name
  if baseName = whiteoutOpaque then
    { acc with newOpaqueDirs := fun d => acc.newOpaqueDirs d || (d == dirName) }
  else
    let isTomb := strStarts baseName whiteout
    let base2 := if isTomb then strDrop baseName whiteout.length else baseName
    let finalPath := if f.hdr.typeflag = TypeFlag.dir then name else goJoin dirName base2
    if (acc.fileMap finalPath).isSome then acc
    else if isFinalized acc.fileMap finalPath || inOpaqueDir opaqueDirs finalPath then acc
    else
      let fm := fun p =>
        if p = finalPath then some (isTomb || (f.hdr.typeflag != TypeFlag.dir))
        else acc.fileMap p
      if isTomb then { acc with fileMap := fm }
      else { acc with fileMap := fm,
                      out := acc.out ++ [{ f with hdr := { f.hdr with name := name } }] }

/-- One layer of Image.Unify: process the files against the opaque set of
the higher layers only, then merge the layer-local opaque set. -/
def procLayer (st : UnifyState) (l : Layer) : UnifyState :=
  let acc := l.files.foldl (procFile st.opaqueDirs)
    { fileMap := st.fileMap, newOpaqueDirs := fun _ => false, out := st.out }
  { fileMap := acc.fileMap,
    opaqueDirs := fun d => st.opaqueDirs d || acc.newOpaqueDirs d,
    out := acc.out }

/-- Go string comparison, character by character.  Go compares the UTF-8
bytes; comparing unicode scalar values gives the same order because
UTF-8 preserves it. -/
def strLtChars : List Char → List Char → Bool
  | [], [] => false
  | [], _ :: _ => true
  | _ :: _, [] => false
  | a :: as, b :: bs =>
    if a.toNat < b.toNat then true
    else if b.toNat < a.toNat then false
    else strLtChars as bs

/-- Go s < t on strings. -/
def strLt (s t : String) : Bool := strLtChars s.data t.data

/-- Insertion step for the final name sort of Image.Unify. -/
def insertByName (f : File) : List File → List File
  | [] => [f]
  | g :: gs => if strLt f.hdr.name g.hdr.name then f :: g :: gs else g :: insertByName f gs

/-- The final sort of Image.Unify (names are pairwise distinct in the
emitted list, so any comparison sort produces this order). -/
def sortByName (l : List File) : List File := l.foldr insertByName []

/-- Image.Unify: walk the layers top to bottom and sort the survivors. -/
def unify (layers : List Layer) : List File :=
  let st := layers.reverse.foldl procLayer
    { fileMap := fun _ => none, opaqueDirs := fun _ => false, out := [] }
  sortByName st.out

/-! ## Association-list helpers standing in for Go maps -/

/-- Go map read m[k]. -/
def alGet {α : Type} (m : List (String × α)) (k : String) : Option α :=
  (m.find? (fun kv => kv.1 == k)).map (fun kv => kv.2)

/-- Go map write m[k] = v (overwrite). -/
def alSet {α : Type} (m : List (String × α)) (k : String) (v : α) : List (String × α) :=
  (k, v) :: m.filter (fun kv => kv.1 ≠ k)

/-- Go delete(m, k). -/
def alDel {α : Type} (m : List (String × α)) (k : String) : List (String × α) :=
  m.filter (fun kv => kv.1 ≠ k)

/-! ## On-disk state -/

/-- A stored value: raw bytes of a content file or blob, or the persisted
JSON entry list of a layer (json.Marshal is deterministic, so metadata
file equality is entry-list equality). -/
inductive DiskVal where
  | bytes (content : List Nat)
  | meta (files : List File)
  deriving DecidableEq

/-- The file system reachable from the work and writable directories. -/
def Disk : Type := String → Option DiskVal

/-- Overwrite one path of the disk. -/
def diskSet (d : Disk) (k : String) (v : DiskVal) : Disk :=
  fun p => if p = k then some v else d p

/-- Read a path expecting raw bytes. -/
def diskBytes (d : Disk) (p : String) : Option (List Nat) :=
  match d p with
  | some (.bytes b) => some b
  | _ => none

/-! ## Writable layer (store.WritableLayer) -/

/-- store.WritableLayer: its directory and the in-memory path to entry
map.  The map is an association list because ListChildren iterates it. -/
structure WLState where
  path : String
  files : List (String × File)
  deriving DecidableEq

/-- WritableLayer.getContentPath: filepath.Join(path, "content", name). -/
def getContentPath (wl : WLState) (name : String) : String :=
  goJoinMulti [wl.path, "content", name]

/-- WritableLayer.SetFile: fix the content path of the entry, store a copy
in the map keyed by the header name, and hand the entry back.  The
MkdirAll of the parent directories under content/ has no observable
effect on the modelled disk values. -/
def setFile (wl : WLState) (f : File) : WLState × File :=
  let f2 := { f with path := getContentPath wl f.hdr.name }
  ({ wl with files := alSet wl.files f.hdr.name f2 }, f2)

/-- WritableLayer.ListChildren: keys one slash-free step below dirPath. -/
def listChildren (files : List (String × File)) (dirPath : String) : List File :=
  let dp := if dirPath ≠ "" ∧ ¬ strEnds dirPath "/" then dirPath ++ "/" else dirPath
  files.filterMap (fun kv =>
    if strStarts kv.1 dp ∧ ¬ containsSlash (trimPfx kv.1 dp) then some kv.2 else none)

/-! ## Directory nodes (internal/unionfs/dir.go) -/

/-- unionDir: one directory of the mounted tree. -/
structure DirNode where
  isRoot : Bool := false
  pathInFs : String
  writableLayer : Option WLState := none
  roLookup : List (String × File) := []
  roDirs : List String := []
  extraDirs : List String := []
  deriving DecidableEq

/-- Which branch of unionDir.Lookup produced the child.  wlEntry and
roEntry carry the resolved store.File (the source builds the child inode
from it, marking it writable resp. read-only); roDir and extraDir are the
two newDirInode calls; enoent covers the miss and the tombstone return. -/
inductive LookupResult where
  | wlEntry (f : File)
  | roEntry (f : File)
  | roDir (p : String)
  | extraDir (p : String)
  | enoent
  deriving DecidableEq

/-- The read-only backstop of unionDir.Lookup (precedence steps 3 to 6). -/
def lookupRO (od : DirNode) (childPath : String) : LookupResult :=
  match alGet od.roLookup childPath with
  | some f => .roEntry f
  | none =>
    if od.roDirs.contains childPath then .roDir childPath
    else if od.extraDirs.contains childPath then .extraDir childPath
    else .enoent

/-- unionDir.Lookup. -/
def DirNode.lookupName (od : DirNode) (name : String) : LookupResult :=
  let childPath := goJoin od.pathInFs name
  match od.writableLayer with
  | some wl =>
    match alGet wl.files childPath with
    | some f => .wlEntry f
    | none =>
      if (alGet wl.files (goJoin od.pathInFs (whiteout ++ name))).isSome then .enoent
      else lookupRO od childPath
  | none => lookupRO od childPath

/-- The guard under which Lookup reaches its read-only backstop: either no
writable layer is configured, or the writable layer holds neither the
child path nor its whiteout. -/
def roPhase (od : DirNode) (name : String) : Prop :=
  od.writableLayer = none ∨
    ∃ wl, od.writableLayer = some wl ∧
      alGet wl.files (goJoin od.pathInFs name) = none ∧
      (alGet wl.files (goJoin od.pathInFs (whiteout ++ name))).isSome = false

/-- unionDir.newDirInode: the child directory node.  The source copies
writableLayer, roLookup and roDirs but not extraDirs (and not isRoot), so
the child node carries an empty extraDirs set. -/
def DirNode.newDirInode (od : DirNode) (p : String) : DirNode :=
  { pathInFs := p,
    writableLayer := od.writableLayer,
    roLookup := od.roLookup,
    roDirs := od.roDirs }

/-- fuse.DirEntry as filled by unionDir.Readdir. -/
structure DirEnt where
  name : String
  mode : Int
  deriving DecidableEq

/-- fuse.S_IFDIR. -/
def sIFDIR : Int := 16384

/-- Readdir loop 1 over roLookup. -/
def roFileStep (pre : String) (merged : List (String × DirEnt)) (kv : String × File) :
    List (String × DirEnt) :=
  if strStarts kv.1 pre then
    let childName := trimPfx kv.1 pre
    if containsSlash childName then merged
    else alSet merged childName ⟨childName, kv.2.hdr.mode⟩
  else merged

/-- Readdir loops 2 and 3 over roDirs and extraDirs. -/
def roDirStep (pre : String) (merged : List (String × DirEnt)) (p : String) :
    List (String × DirEnt) :=
  if strStarts p pre then
    let childName := trimPfx p pre
    if childName ≠ "" ∧ ¬ containsSlash childName then
      alSet merged childName ⟨childName, sIFDIR⟩
    else merged
  else merged

/-- Readdir loop 4 over the writable children: whiteout names delete the
real name, other names overwrite. -/
def wlChildStep (merged : List (String × DirEnt)) (f : File) : List (String × DirEnt) :=
  let baseName := goBase f.hdr.name
  if strStarts baseName whiteout then alDel merged (trimPfx baseName whiteout)
  else alSet merged baseName ⟨baseName, f.hdr.mode⟩

/-- The prefix Readdir strips from candidate children of this node. -/
def readdirPre (od : DirNode) : String :=
  if od.pathInFs ≠ "" then od.pathInFs ++ "/" else od.pathInFs

/-- unionDir.Readdir with the writable children supplied explicitly: Go
iterates a map in unspecified order, so theorems quantify over this
list. -/
def readdirWith (od : DirNode) (wlKids : List File) : List DirEnt :=
  let m1 := od.roLookup.foldl (roFileStep (readdirPre od)) []
  let m2 := od.roDirs.foldl (roDirStep (readdirPre od)) m1
  let m3 := od.extraDirs.foldl (roDirStep (readdirPre od)) m2
  let m4 := wlKids.foldl wlChildStep m3
  m4.map (fun kv => kv.2)

/-- unionDir.Readdir: the writable children come from ListChildren. -/
def DirNode.readdir (od : DirNode) : List DirEnt :=
  match od.writableLayer with
  | some wl => readdirWith od (listChildren wl.files od.pathInFs)
  | none => readdirWith od []

/-- The directory chain loop of unionfs Init: collect path.Dir iterates
until "." or "/" is reached. -/
def dirChain (fuel : Nat) (d : String) : List String :=
  match fuel with
  | 0 => []
  | fuel + 1 => if d = "." ∨ d = "/" then [] else d :: dirChain fuel (goDir d)

/-- unionfs Init: index the unified files by name, record the implicit
parent directories (root always included), and hang the option-supplied
extra directories and writable layer on the root node. -/
def initNode (files : List File) (extraDirs : List String) (wl : Option WLState) : DirNode :=
  { isRoot := true,
    pathInFs := "",
    roLookup := files.map (fun f => (f.hdr.name, f)),
    roDirs := "" :: files.foldr
      (fun f acc => dirChain (f.hdr.name.length + 2) (goDir f.hdr.name) ++ acc) [],
    extraDirs := extraDirs,
    writableLayer := wl }

/-! ## File nodes (internal/unionfs/file.go) -/

/-- unionFile: path in the tree, the backing entry, and which side backs
it. -/
structure FileNode where
  pathInFs : String
  file : File
  isWritable : Bool
  deriving DecidableEq

/-- unionFileHandle: the open descriptor, modelled by the disk path it
reads and writes. -/
structure Handle where
  hpath : String
  deriving DecidableEq

/-- The errno values the modelled operations return.  badDeref marks the
code path where the source would dereference a missing read-only entry. -/
inductive Errno where
  | EROFS
  | EBADF
  | EIOerr
  | ENOENT
  | badDeref
  deriving DecidableEq

/-- File.WriteAt semantics: bytes before the offset are kept (zero padding
fills a gap past the end), the data overwrites from the offset on. -/
def listWriteAt (content : List Nat) (off : Nat) (data : List Nat) : List Nat :=
  content.take off ++ List.replicate (off - content.length) 0 ++ data
    ++ content.drop (off + data.length)

/-- Result state of unionFile.Write. -/
structure WriteOut where
  disk : Disk
  wl : WLState
  node : FileNode
  handle : Handle
  written : Nat

/-- unionFile.Write: copy-up when the node is still backed by the
read-only view, then the positional write, then the cumulative size
update persisted through SetFile. -/
def unionFileWrite (roLookup : List (String × File)) (wlOpt : Option WLState) (disk : Disk)
    (uf : FileNode) (h : Handle) (data : List Nat) (off : Nat) : Except Errno WriteOut :=
  match wlOpt with
  | none => .error .EROFS
  | some wl =>
    let step1 : Except Errno (Disk × WLState × FileNode × Handle) :=
      if uf.isWritable then .ok (disk, wl, uf, h)
      else
        match alGet roLookup uf.pathInFs with
        | none => .error .badDeref
        | some roFile =>
          let (wl1, dstFile) := setFile wl { hdr := uf.file.hdr }
          match diskBytes disk roFile.path with
          | some srcBytes =>
            .ok (diskSet disk dstFile.path (.bytes srcBytes), wl1,
                 { uf with isWritable := true }, { hpath := dstFile.path })
          | none => .error .EIOerr
    match step1 with
    | .error e => .error e
    | .ok (disk1, wl1, uf1, h1) =>
      match diskBytes disk1 h1.hpath with
      | some content =>
        let newContent := listWriteAt content off data
        let hdr2 := { uf1.file.hdr with size := uf1.file.hdr.size + data.length }
        let (wl2, f2) := setFile wl1 { uf1.file with hdr := hdr2 }
        .ok { disk := diskSet disk1 h1.hpath (.bytes newContent),
              wl := wl2,
              node := { uf1 with file := f2 },
              handle := h1,
              written := data.length }
      | none => .error .EBADF

/-- headerToAttr reduced to the size field: Getattr reports the recorded
header size. -/
def getattrSize (uf : FileNode) : Int := uf.file.hdr.size

/-- unionFile.Read through a handle: ReadAt fills at most destLen bytes
from the offset and returns the bytes actually present. -/
def unionFileRead (disk : Disk) (h : Handle) (destLen off : Nat) : Except Errno (List Nat) :=
  match diskBytes disk h.hpath with
  | some c => .ok ((c.drop off).take destLen)
  | none => .error .EIOerr

/-- A read of path p through the mount: Lookup (writable entry first, then
the tombstone check, then the read-only view), Open on the resolved
backing path, then the content read. -/
def mountRead (wlOpt : Option WLState) (roLookup : List (String × File)) (disk : Disk)
    (p : String) : Option (List Nat) :=
  match wlOpt with
  | some wl =>
    match alGet wl.files p with
    | some f => diskBytes disk f.path
    | none =>
      if (alGet wl.files (goJoin (goDir p) (whiteout ++ goBase p))).isSome then none
      else
        match alGet roLookup p with
        | some r => diskBytes disk r.path
        | none => none
  | none =>
    match alGet roLookup p with
    | some r => diskBytes disk r.path
    | none => none

/-! ## Unlink (internal/unionfs/dir.go Unlink) -/

/-- The mutable state Unlink touches: the disk and the writable layer. -/
structure UnlinkState where
  disk : Disk
  wl : Option WLState

/-- unionDir.Unlink: delete a writable entry outright; otherwise tombstone
a read-only path (SetFile plus touching an empty content file);
otherwise ENOENT. -/
def unlinkOp (roLookup : List (String × File)) (pathInFs : String) (st : UnlinkState)
    (name : String) : Except Errno UnlinkState :=
  match st.wl with
  | none => .error .EROFS
  | some wl =>
    let childPath := goJoin pathInFs name
    match alGet wl.files childPath with
    | some f =>
      let contentPath := getContentPath wl f.hdr.name
      .ok { disk := fun p => if p = contentPath then none else st.disk p,
            wl := some { wl with files := alDel wl.files childPath } }
    | none =>
      if (alGet roLookup childPath).isSome then
        let whiteoutPath := goJoin pathInFs (whiteout ++ name)
        let (wl2, f) := setFile wl { hdr := { name := whiteoutPath, mode := 0, size := 0 } }
        .ok { disk := diskSet st.disk f.path (.bytes []), wl := some wl2 }
      else .error .ENOENT

/-! ## Layer store (internal/store/store.go and layer.go) -/

/-- v1.Hash: algorithm and hex. -/
structure Digest where
  algorithm : String
  hex : String
  deriving DecidableEq

/-- Store.blobPath: filepath.Join(s.path, "blobs", h.Algorithm, h.Hex). -/
def blobPath (storePath : String) (h : Digest) : String :=
  goJoinMulti [storePath, "blobs", h.algorithm, h.hex]

/-- One tar record of a layer stream: the header plus the body bytes
(empty for non-regular entries). -/
structure TarRecord where
  hdr : Header
  body : List Nat := []
  deriving DecidableEq

/-- Result of extractTar: the entry list, the disk, and the list of blob
paths this run moved into place. -/
structure ExtractOut where
  files : List File
  disk : Disk
  written : List String

/-- Store.extractTar over a record list.  Every record contributes an
entry; for regular files the body is hashed, the blob path recorded on
the entry, and the temp file renamed into place only when the target
does not exist yet (otherwise the temp is discarded).  The hash function
is a parameter standing for SHA-256. -/
def extractTar (hash : List Nat → String) (storePath : String) :
    List TarRecord → Disk → ExtractOut
  | [], disk => ⟨[], disk, []⟩
  | r :: rest, disk =>
    if r.hdr.typeflag ≠ TypeFlag.reg then
      let out := extractTar hash storePath rest disk
      ⟨{ hdr := r.hdr } :: out.files, out.disk, out.written⟩
    else
      let bp := blobPath storePath ⟨"sha256", hash r.body⟩
      let f : File := { hdr := r.hdr, path := bp }
      if (disk bp).isSome then
        let out := extractTar hash storePath rest disk
        ⟨f :: out.files, out.disk, out.written⟩
      else
        let out := extractTar hash storePath rest (diskSet disk bp (.bytes r.body))
        ⟨f :: out.files, out.disk, bp :: out.written⟩

/-- Store.unpackLayer: extract the stream, then Layer.Persist writes the
JSON entry list directly to blobPath(layer digest) with os.WriteFile
(one direct write to the final path; no temp file, no rename, and no
".meta" suffix is appended anywhere in the source). -/
def unpackLayer (hash : List Nat → String) (storePath : String) (layerDigest : Digest)
    (recs : List TarRecord) (disk : Disk) : ExtractOut :=
  let e := extractTar hash storePath recs disk
  ⟨e.files, diskSet e.disk (blobPath storePath layerDigest) (.meta e.files), e.written⟩

/-! ## Concrete instances used by the scenario evaluations, the
counterexamples and the witnesses -/

/-- A regular-file layer entry with a given blob path. -/
def regEntry (n p : String) : File := { hdr := { name := n }, path := p }

/-- A directory layer entry. -/
def dirEntry (n : String) : File := { hdr := { name := n, typeflag := TypeFlag.dir } }

/-- Base layer of the three-layer scenario: directories /var, /var/log,
/etc plus /var/log/dmesg and the base version of /etc/host. -/
def c1Base : Layer :=
  ⟨[dirEntry "/var", dirEntry "/var/log", dirEntry "/etc",
    regEntry "/var/log/dmesg" "blob-dmesg", regEntry "/etc/host" "blob-host-base"]⟩

/-- Middle layer: whiteout of dmesg, a new app.log, the middle version of
/etc/host. -/
def c1Mid : Layer :=
  ⟨[regEntry "/var/log/.wh.dmesg" "", regEntry "/var/log/app.log" "blob-app",
    regEntry "/etc/host" "blob-host-mid"]⟩

/-- Top layer: the OCI opaque marker inside /var/log and a fresh
new.log. -/
def c1Top : Layer :=
  ⟨[regEntry "/var/log/.wh..wh..opq" "", regEntry "/var/log/new.log" "blob-new"]⟩

/-- Lower layer of the minimal opaque example: one file under d. -/
def c2Base : Layer := ⟨[regEntry "d/a" "blob-a"]⟩

/-- Upper layer of the minimal opaque example: the OCI opaque marker in
directory d. -/
def c2Top : Layer := ⟨[regEntry "d/.wh..wh..opq" ""]⟩

/-- A root node carrying extra directories a and a/b (as WithExtraDirs
records them, parents included), with an empty image. -/
def c3Root : DirNode :=
  { isRoot := true, pathInFs := "", writableLayer := none,
    roLookup := [], roDirs := [""], extraDirs := ["a/b", "a"] }

/-- A writable-layer state holding one entry, used by witnesses. -/
def c3wlRoot : DirNode :=
  { isRoot := true, pathInFs := "",
    writableLayer := some { path := "up", files := [("n", regEntry "n" "up/content/n")] },
    roLookup := [], roDirs := [""] }

/-- The read-only entry behind the copy-on-write witness. -/
def c4ro : File := { hdr := { name := "app/cfg", size := 2 }, path := "w/blobs/sha256/x" }

/-- Read-only index of the copy-on-write witness. -/
def c4roLookup : List (String × File) := [("app/cfg", c4ro)]

/-- An empty writable layer rooted at up. -/
def c4wl : WLState := { path := "up", files := [] }

/-- Disk holding only the original blob bytes "v2". -/
def c4disk : Disk :=
  fun p => if p = "w/blobs/sha256/x" then some (.bytes [118, 50]) else none

/-- The file node for app/cfg still backed by the read-only view. -/
def c4node : FileNode := { pathInFs := "app/cfg", file := c4ro, isWritable := false }

/-- A trivial stand-in hash function for concrete store runs. -/
def cHash : List Nat → String := fun _ => "deadbeef"

/-- The empty disk. -/
def emptyDisk : Disk := fun _ => none

/-- The writable entry behind the cumulative-size witness. -/
def c8file : File := { hdr := { name := "n", size := 2 }, path := "up/content/n" }

/-- Writable layer holding the cumulative-size witness entry. -/
def c8wl : WLState := { path := "up", files := [("n", c8file)] }

/-- Disk holding the two actual bytes of the witness file. -/
def c8disk : Disk :=
  fun p => if p = "up/content/n" then some (.bytes [118, 50]) else none

/-- The writable-backed file node of the cumulative-size witness. -/
def c8node : FileNode := { pathInFs := "n", file := c8file, isWritable := true }

/-- The entry OnAdd stores for the root under the empty path
(fuse.S_IFDIR together with permission bits 0755). -/
def rootEntryFile : File := { hdr := { name := "", typeflag := .dir, mode := 16877 } }

/-- A single-entry layer whose path carries a .wh. component in a
non-final position. -/
def c10Layer : Layer := ⟨[regEntry ".wh.d/f" "blob-f"]⟩

/-- The mounted root for that layer (no writable layer, no extras). -/
def c10Root : DirNode := initNode (unify [c10Layer]) [] none

/-- A root with one read-only file x, used by the readdir witness. -/
def c10wRoot : DirNode :=
  { isRoot := true, pathInFs := "",
    roLookup := [("x", regEntry "x" "blob-x")], roDirs := [""] }

/-- Writable children for the readdir witness: a whiteout of x and a
fresh file y. -/
def c10wKids : List File := [regEntry ".wh.x" "", regEntry "y" "up/content/y"]

/-! ## Helper lemmas -/

theorem alGet_alSet_same {α : Type} (m : List (String × α)) (k : String) (v : α) :
    alGet (alSet m k v) k = some v := by
  simp [alGet, alSet, List.find?]

theorem alGet_alDel_same {α : Type} (m : List (String × α)) (k : String) :
    alGet (alDel m k) k = none := by
  have h : List.find? (fun kv => kv.1 == k) (alDel m k) = none := by
    apply List.find?_eq_none.mpr
    intro kv hkv
    have h2 := List.of_mem_filter hkv
    simp only [decide_not] at h2 ⊢
    simpa using h2
  simp [alGet, h]

theorem mem_alSet {α : Type} {m : List (String × α)} {k : String} {v : α} {kv : String × α}
    (h : kv ∈ alSet m k v) : kv = (k, v) ∨ kv ∈ m := by
  rcases List.mem_cons.mp h with h2 | h2
  · exact Or.inl h2
  · exact Or.inr (List.mem_of_mem_filter h2)

theorem mem_alDel {α : Type} {m : List (String × α)} {k : String} {kv : String × α}
    (h : kv ∈ alDel m k) : kv ∈ m :=
  List.mem_of_mem_filter h

theorem foldl_pred {α β : Type} (P : β → Prop) (step : β → α → β) :
    ∀ (l : List α) (b : β), (∀ b a, a ∈ l → P b → P (step b a)) → P b → P (l.foldl step b)
  | [], _, _, hb => hb
  | a :: l, b, hstep, hb =>
    foldl_pred P step l (step b a)
      (fun b a ha hb => hstep b a (List.mem_cons_of_mem _ ha) hb)
      (hstep b a (List.mem_cons_self _ _) hb)

theorem diskBytes_set_same (d : Disk) (k : String) (b : List Nat) :
    diskBytes (diskSet d k (.bytes b)) k = some b := by
  simp [diskBytes, diskSet]

theorem diskBytes_set_ne (d : Disk) (k p : String) (v : DiskVal) (h : p ≠ k) :
    diskBytes (diskSet d k v) p = diskBytes d p := by
  simp [diskBytes, diskSet, h]

/-! ## Claim C1 -/

/-- C1: evaluating Unify on the three-layer scenario of the claim.  The
claim expects the five entries /etc, /etc/host (middle version), /var,
/var/log, /var/log/new.log; the code instead returns six entries, with
/var/log/app.log surviving, because the opaque constant of image.go is
".wh..wh.opq" (one dot short of the OCI marker), so the input file
/var/log/.wh..wh..opq is handled as a standard whiteout of the
non-existent path /var/log/.wh..opq and hides nothing. -/
theorem c1_unify_scenario :
    unify [c1Base, c1Mid, c1Top] =
      [dirEntry "/etc", regEntry "/etc/host" "blob-host-mid", dirEntry "/var",
       dirEntry "/var/log", regEntry "/var/log/app.log" "blob-app",
       regEntry "/var/log/new.log" "blob-new"] := by
  decide

/-! ## Claim C2 -/

/-- C2: the opaque marker named ".wh..wh..opq" does not hide lower-layer
entries.  On the minimal failing input (base layer d/a, top layer
d/.wh..wh..opq) the lower entry d/a survives, because the constant the
code compares against is ".wh..wh.opq". -/
theorem c2_opaque_marker_ignored :
    unify [c2Base, c2Top] = [regEntry "d/a" "blob-a"] ∧ whiteoutOpaque = ".wh..wh.opq" := by
  constructor
  · decide
  · decide

/-! ## Claim C3 -/

/-- C3 counterexample: with extra directories a and a/b, the root resolves
a as a virtual directory, but the child node the source builds for it
drops the extra_dirs set, so looking up b inside it returns ENOENT even
though extra_dirs contains a/b. -/
theorem c3_counterexample :
    c3Root.lookupName "a" = LookupResult.extraDir "a" ∧
    c3Root.extraDirs.contains "a/b" = true ∧
    (c3Root.newDirInode "a").lookupName "b" = LookupResult.enoent := by
  refine ⟨by decide, by decide, by decide⟩

/-- C3 amended: lookup follows the claimed precedence, with the extra_dirs
step reading the extraDirs set of the node at hand; child directory
nodes are built by newDirInode without that set, so on every node
reached through lookup or readdir the extra_dirs step never fires. -/
theorem c3_lookup_rules (od : DirNode) (name : String) :
    (∀ wl f, od.writableLayer = some wl →
      alGet wl.files (goJoin od.pathInFs name) = some f →
      od.lookupName name = LookupResult.wlEntry f) ∧
    (∀ wl, od.writableLayer = some wl →
      alGet wl.files (goJoin od.pathInFs name) = none →
      (alGet wl.files (goJoin od.pathInFs (whiteout ++ name))).isSome = true →
      od.lookupName name = LookupResult.enoent) ∧
    (∀ f, roPhase od name →
      alGet od.roLookup (goJoin od.pathInFs name) = some f →
      od.lookupName name = LookupResult.roEntry f) ∧
    (roPhase od name →
      alGet od.roLookup (goJoin od.pathInFs name) = none →
      od.roDirs.contains (goJoin od.pathInFs name) = true →
      od.lookupName name = LookupResult.roDir (goJoin od.pathInFs name)) ∧
    (roPhase od name →
      alGet od.roLookup (goJoin od.pathInFs name) = none →
      od.roDirs.contains (goJoin od.pathInFs name) = false →
      od.extraDirs.contains (goJoin od.pathInFs name) = true →
      od.lookupName name = LookupResult.extraDir (goJoin od.pathInFs name)) ∧
    (roPhase od name →
      alGet od.roLookup (goJoin od.pathInFs name) = none →
      od.roDirs.contains (goJoin od.pathInFs name) = false →
      od.extraDirs.contains (goJoin od.pathInFs name) = false →
      od.lookupName name = LookupResult.enoent) ∧
    (∀ p, (od.newDirInode p).extraDirs = []) := by
  refine ⟨?_, ?_, ?_, ?_, ?_, ?_, ?_⟩
  · intro wl f hwl hget
    simp [DirNode.lookupName, hwl, hget]
  · intro wl hwl hmiss hwh
    simp [DirNode.lookupName, hwl, hmiss, hwh]
  · intro f hphase hget
    rcases hphase with hnone | ⟨wl, hwl, hmiss, hwh⟩
    · simp [DirNode.lookupName, hnone, lookupRO, hget]
    · simp [DirNode.lookupName, hwl, hmiss, hwh, lookupRO, hget]
  · intro hphase hmiss2 hdirs
    have hd : goJoin od.pathInFs name ∈ od.roDirs := by simpa using hdirs
    rcases hphase with hnone | ⟨wl, hwl, hmiss, hwh⟩
    · simp [DirNode.lookupName, hnone, lookupRO, hmiss2, hd]
    · simp [DirNode.lookupName, hwl, hmiss, hwh, lookupRO, hmiss2, hd]
  · intro hphase hmiss2 hdirs hextra
    have hd : goJoin od.pathInFs name ∉ od.roDirs := by simpa using hdirs
    have he : goJoin od.pathInFs name ∈ od.extraDirs := by simpa using hextra
    rcases hphase with hnone | ⟨wl, hwl, hmiss, hwh⟩
    · simp [DirNode.lookupName, hnone, lookupRO, hmiss2, hd, he]
    · simp [DirNode.lookupName, hwl, hmiss, hwh, lookupRO, hmiss2, hd, he]
  · intro hphase hmiss2 hdirs hextra
    have hd : goJoin od.pathInFs name ∉ od.roDirs := by simpa using hdirs
    have he : goJoin od.pathInFs name ∉ od.extraDirs := by simpa using hextra
    rcases hphase with hnone | ⟨wl, hwl, hmiss, hwh⟩
    · simp [DirNode.lookupName, hnone, lookupRO, hmiss2, hd, he]
    · simp [DirNode.lookupName, hwl, hmiss, hwh, lookupRO, hmiss2, hd, he]
  · intro p
    rfl

/-- C3 witness: the precedence rules applied to a concrete node whose
writable layer holds the entry n. -/
theorem c3_witness :
    c3wlRoot.lookupName "n" = LookupResult.wlEntry (regEntry "n" "up/content/n") :=
  (c3_lookup_rules c3wlRoot "n").1
    { path := "up", files := [("n", regEntry "n" "up/content/n")] }
    (regEntry "n" "up/content/n") rfl (by decide)

/-! ## Claim C4 -/

/-- C4: a successful write through a handle on a path still backed by the
read-only view copies the blob up into the writable layer: afterwards
the writable map holds an entry for the path whose content path lies
under content/, that content path holds the copied bytes with the write
applied, the original blob bytes are untouched, and a read of the path
through the mount returns the written data. -/
theorem c4_write_copyup
    (roLookup : List (String × File)) (wl : WLState) (disk : Disk) (uf : FileNode)
    (h : Handle) (data : List Nat) (off : Nat) (roF : File) (orig : List Nat)
    (hw : uf.isWritable = false)
    (hname : uf.file.hdr.name = uf.pathInFs)
    (hro : alGet roLookup uf.pathInFs = some roF)
    (horig : diskBytes disk roF.path = some orig)
    (hne : getContentPath wl uf.pathInFs ≠ roF.path) :
    ∃ out, unionFileWrite roLookup (some wl) disk uf h data off = .ok out ∧
      (∃ e : File, alGet out.wl.files uf.pathInFs = some e ∧
        e.path = getContentPath wl uf.pathInFs) ∧
      diskBytes out.disk (getContentPath wl uf.pathInFs) =
        some (listWriteAt orig off data) ∧
      diskBytes out.disk roF.path = some orig ∧
      mountRead (some out.wl) roLookup out.disk uf.pathInFs =
        some (listWriteAt orig off data) ∧
      out.written = data.length := by
  have hcp : getContentPath wl uf.file.hdr.name = getContentPath wl uf.pathInFs := by
    rw [hname]
  have hner : roF.path ≠ getContentPath wl uf.pathInFs := fun hh => hne hh.symm
  simp only [unionFileWrite, hw, Bool.false_eq_true, if_false, hro, setFile, hcp,
    diskBytes_set_same, horig]
  refine ⟨_, rfl, ?_, ?_, ?_, ?_, rfl⟩
  · rw [← hname]
    exact ⟨_, alGet_alSet_same _ _ _, rfl⟩
  · exact diskBytes_set_same _ _ _
  · rw [diskBytes_set_ne _ _ _ _ hner, diskBytes_set_ne _ _ _ _ hner]
    exact horig
  · simp only [mountRead]
    rw [← hname, alGet_alSet_same, hname]
    exact diskBytes_set_same _ _ _

/-- C4 witness: the copy-on-write theorem applied to the concrete scenario
overriding /app/cfg with v3 at offset zero. -/
theorem c4_witness :
    ∃ out, unionFileWrite c4roLookup (some c4wl) c4disk c4node
        { hpath := "w/blobs/sha256/x" } [118, 51] 0 = .ok out ∧
      (∃ e : File, alGet out.wl.files c4node.pathInFs = some e ∧
        e.path = getContentPath c4wl c4node.pathInFs) ∧
      diskBytes out.disk (getContentPath c4wl c4node.pathInFs) =
        some (listWriteAt [118, 50] 0 [118, 51]) ∧
      diskBytes out.disk c4ro.path = some [118, 50] ∧
      mountRead (some out.wl) c4roLookup out.disk c4node.pathInFs =
        some (listWriteAt [118, 50] 0 [118, 51]) ∧
      out.written = 2 :=
  c4_write_copyup c4roLookup c4wl c4disk c4node { hpath := "w/blobs/sha256/x" }
    [118, 51] 0 c4ro [118, 50] rfl rfl (by decide) (by decide) (by decide)

/-! ## Claim C8 -/

/-- C8: for a writable-backed file, each successful write adds the byte
count to the recorded header size (a cumulative sum); Getattr reports
that recorded size, while reading the handle returns the bytes actually
present in the backing content file. -/
theorem c8_write_cumulative_size
    (roLookup : List (String × File)) (wl : WLState) (disk : Disk) (uf : FileNode)
    (h : Handle) (data : List Nat) (off : Nat) (content : List Nat)
    (hw : uf.isWritable = true)
    (hh : h.hpath = uf.file.path)
    (hc : diskBytes disk uf.file.path = some content) :
    ∃ out, unionFileWrite roLookup (some wl) disk uf h data off = .ok out ∧
      out.node.file.hdr.size = uf.file.hdr.size + data.length ∧
      getattrSize out.node = uf.file.hdr.size + data.length ∧
      diskBytes out.disk out.handle.hpath = some (listWriteAt content off data) ∧
      unionFileRead out.disk out.handle (listWriteAt content off data).length 0 =
        .ok (listWriteAt content off data) := by
  have hc2 : diskBytes disk h.hpath = some content := by rw [hh]; exact hc
  simp only [unionFileWrite, hw, if_true, hc2, setFile]
  refine ⟨_, rfl, rfl, rfl, ?_, ?_⟩
  · exact diskBytes_set_same _ _ _
  · simp only [unionFileRead, diskBytes_set_same]
    simp

/-- C8 witness: writing two bytes at offset zero over a two-byte file
whose recorded size is already two leaves a recorded size of four while
the backing file still holds exactly two bytes, so stat and readable
length disagree. -/
theorem c8_witness :
    (∃ out, unionFileWrite [] (some c8wl) c8disk c8node { hpath := "up/content/n" }
        [118, 51] 0 = .ok out ∧
      out.node.file.hdr.size = (2 : Int) + (2 : Nat) ∧
      getattrSize out.node = (2 : Int) + (2 : Nat) ∧
      diskBytes out.disk out.handle.hpath = some (listWriteAt [118, 50] 0 [118, 51]) ∧
      unionFileRead out.disk out.handle (listWriteAt [118, 50] 0 [118, 51]).length 0 =
        .ok (listWriteAt [118, 50] 0 [118, 51])) ∧
    ((2 : Int) + (2 : Nat) ≠ (listWriteAt [118, 50] 0 [118, 51]).length) :=
  ⟨c8_write_cumulative_size [] c8wl c8disk c8node { hpath := "up/content/n" }
      [118, 51] 0 [118, 50] rfl rfl (by decide), by decide⟩

theorem diskSet_idem (d : Disk) (k : String) (v : DiskVal) :
    diskSet (diskSet d k v) k v = diskSet d k v := by
  funext p
  by_cases h : p = k <;> simp [diskSet, h]

theorem extract_files_indep (hash : List Nat → String) (sp : String) (recs : List TarRecord) :
    ∀ d d' : Disk, (extractTar hash sp recs d).files = (extractTar hash sp recs d').files := by
  induction recs with
  | nil => intro d d'; rfl
  | cons r rest ih =>
    intro d d'
    by_cases h1 : r.hdr.typeflag ≠ TypeFlag.reg
    · simp only [extractTar, if_pos h1]
      simp [ih d d']
    · simp only [extractTar, if_neg h1]
      by_cases h2 : (d (blobPath sp ⟨"sha256", hash r.body⟩)).isSome = true <;>
        by_cases h3 : (d' (blobPath sp ⟨"sha256", hash r.body⟩)).isSome = true <;>
        simp [h2, h3] <;> exact ih _ _

theorem extract_disk_mono (hash : List Nat → String) (sp : String) (recs : List TarRecord) :
    ∀ (d : Disk) (p : String), (d p).isSome = true →
      ((extractTar hash sp recs d).disk p).isSome = true := by
  induction recs with
  | nil => intro d p hp; exact hp
  | cons r rest ih =>
    intro d p hp
    by_cases h1 : r.hdr.typeflag ≠ TypeFlag.reg
    · simp only [extractTar, if_pos h1]
      exact ih d p hp
    · simp only [extractTar, if_neg h1]
      by_cases h2 : (d (blobPath sp ⟨"sha256", hash r.body⟩)).isSome = true
      · simp only [h2, if_true]
        exact ih d p hp
      · simp only [h2, Bool.false_eq_true, if_false]
        apply ih
        by_cases hpe : p = blobPath sp ⟨"sha256", hash r.body⟩ <;> simp [diskSet, hpe, hp]

theorem extract_blob_present (hash : List Nat → String) (sp : String) (recs : List TarRecord) :
    ∀ (d : Disk) (r : TarRecord), r ∈ recs → r.hdr.typeflag = TypeFlag.reg →
      ((extractTar hash sp recs d).disk (blobPath sp ⟨"sha256", hash r.body⟩)).isSome = true := by
  induction recs with
  | nil => intro d r hr; cases hr
  | cons a rest ih =>
    intro d r hr hreg
    rcases List.mem_cons.mp hr with hr1 | hr2
    · subst hr1
      have h1 : ¬ (r.hdr.typeflag ≠ TypeFlag.reg) := by simp [hreg]
      simp only [extractTar, if_neg h1]
      by_cases h2 : (d (blobPath sp ⟨"sha256", hash r.body⟩)).isSome = true
      · simp only [h2, if_true]
        exact extract_disk_mono hash sp rest d _ h2
      · simp only [h2, Bool.false_eq_true, if_false]
        apply extract_disk_mono
        simp [diskSet]
    · by_cases h1 : a.hdr.typeflag ≠ TypeFlag.reg
      · simp only [extractTar, if_pos h1]
        exact ih d r hr2 hreg
      · simp only [extractTar, if_neg h1]
        by_cases h2 : (d (blobPath sp ⟨"sha256", hash a.body⟩)).isSome = true
        · simp only [h2, if_true]
          exact ih d r hr2 hreg
        · simp only [h2, Bool.false_eq_true, if_false]
          exact ih _ r hr2 hreg

theorem extract_no_new_blobs (hash : List Nat → String) (sp : String) (recs : List TarRecord) :
    ∀ d : Disk,
      (∀ r ∈ recs, r.hdr.typeflag = TypeFlag.reg →
        (d (blobPath sp ⟨"sha256", hash r.body⟩)).isSome = true) →
      (extractTar hash sp recs d).disk = d ∧ (extractTar hash sp recs d).written = [] := by
  induction recs with
  | nil => intro d _; exact ⟨rfl, rfl⟩
  | cons a rest ih =>
    intro d hd
    by_cases h1 : a.hdr.typeflag ≠ TypeFlag.reg
    · simp only [extractTar, if_pos h1]
      exact ih d (fun r hr => hd r (List.mem_cons_of_mem _ hr))
    · have h2 : (d (blobPath sp ⟨"sha256", hash a.body⟩)).isSome = true :=
        hd a (List.mem_cons_self _ _) (not_not.mp h1)
      simp only [extractTar, if_neg h1, h2, if_true]
      exact ih d (fun r hr => hd r (List.mem_cons_of_mem _ hr))

/-! ## Claim C5 -/

/-- C5: unpacking the same record stream twice is idempotent.  After the
first unpack every blob a regular record hashes to is on disk, so the
second run performs no blob write at all (its written list is empty, as
the temp file of an already-present blob is discarded), produces the
same entry list, and re-persists byte-identical metadata, leaving the
disk unchanged. -/
theorem c5_unpack_idempotent (hash : List Nat → String) (sp : String) (lh : Digest)
    (recs : List TarRecord) (disk : Disk) :
    (unpackLayer hash sp lh recs (unpackLayer hash sp lh recs disk).disk).files =
      (unpackLayer hash sp lh recs disk).files ∧
    (unpackLayer hash sp lh recs (unpackLayer hash sp lh recs disk).disk).written = [] ∧
    (unpackLayer hash sp lh recs (unpackLayer hash sp lh recs disk).disk).disk =
      (unpackLayer hash sp lh recs disk).disk := by
  have hpresent : ∀ r ∈ recs, r.hdr.typeflag = TypeFlag.reg →
      ((unpackLayer hash sp lh recs disk).disk
        (blobPath sp ⟨"sha256", hash r.body⟩)).isSome = true := by
    intro r hr hreg
    have h := extract_blob_present hash sp recs disk r hr hreg
    simp only [unpackLayer]
    by_cases hpe : blobPath sp ⟨"sha256", hash r.body⟩ = blobPath sp lh <;>
      simp [diskSet, hpe, h]
  have hnw := extract_no_new_blobs hash sp recs (unpackLayer hash sp lh recs disk).disk hpresent
  have hfiles := extract_files_indep hash sp recs (unpackLayer hash sp lh recs disk).disk disk
  refine ⟨hfiles, hnw.2, ?_⟩
  show diskSet (extractTar hash sp recs (unpackLayer hash sp lh recs disk).disk).disk
      (blobPath sp lh)
      (.meta (extractTar hash sp recs (unpackLayer hash sp lh recs disk).disk).files) =
    (unpackLayer hash sp lh recs disk).disk
  rw [hnw.1, hfiles]
  show diskSet (diskSet (extractTar hash sp recs disk).disk (blobPath sp lh)
      (.meta (extractTar hash sp recs disk).files)) (blobPath sp lh)
      (.meta (extractTar hash sp recs disk).files) = _
  rw [diskSet_idem]
  rfl

/-! ## Claim C6 -/

/-- C6: with a writable layer configured, Unlink deletes a writable-layer
entry outright and succeeds; failing that, a path present in the
read-only view gets a .wh.name tombstone entry recorded in the writable
layer, with an empty content file touched on disk, and success;
otherwise the result is ENOENT. -/
theorem c6_unlink_cases (roLookup : List (String × File)) (pathInFs : String)
    (st : UnlinkState) (name : String) (wl : WLState) (hwl : st.wl = some wl) :
    (∀ f, alGet wl.files (goJoin pathInFs name) = some f →
      ∃ st2, unlinkOp roLookup pathInFs st name = .ok st2 ∧
        ∃ wl2, st2.wl = some wl2 ∧ alGet wl2.files (goJoin pathInFs name) = none) ∧
    (alGet wl.files (goJoin pathInFs name) = none →
      (alGet roLookup (goJoin pathInFs name)).isSome = true →
      ∃ st2, unlinkOp roLookup pathInFs st name = .ok st2 ∧
        ∃ wl2, st2.wl = some wl2 ∧
          alGet wl2.files (goJoin pathInFs (whiteout ++ name)) =
            some { hdr := { name := goJoin pathInFs (whiteout ++ name), mode := 0, size := 0 },
                   path := getContentPath wl (goJoin pathInFs (whiteout ++ name)) } ∧
          diskBytes st2.disk (getContentPath wl (goJoin pathInFs (whiteout ++ name))) =
            some []) ∧
    (alGet wl.files (goJoin pathInFs name) = none →
      alGet roLookup (goJoin pathInFs name) = none →
      unlinkOp roLookup pathInFs st name = .error .ENOENT) := by
  refine ⟨?_, ?_, ?_⟩
  · intro f hget
    simp only [unlinkOp, hwl, hget]
    exact ⟨_, rfl, _, rfl, alGet_alDel_same _ _⟩
  · intro hmiss hro
    simp only [unlinkOp, hwl, hmiss, hro, if_true, setFile]
    exact ⟨_, rfl, _, rfl, alGet_alSet_same _ _ _, diskBytes_set_same _ _ _⟩
  · intro hmiss hro
    simp only [unlinkOp, hwl, hmiss, hro, Option.isSome_none, Bool.false_eq_true, if_false]

/-- C6 witness: the three unlink rules applied to a concrete state whose
read-only view holds app/cfg and whose writable layer is empty, showing
the tombstone branch concretely. -/
theorem c6_witness :
    ∃ st2, unlinkOp c4roLookup "app" { disk := c4disk, wl := some c4wl } "cfg" = .ok st2 ∧
      ∃ wl2, st2.wl = some wl2 ∧
        alGet wl2.files (goJoin "app" (whiteout ++ "cfg")) =
          some { hdr := { name := goJoin "app" (whiteout ++ "cfg"), mode := 0, size := 0 },
                 path := getContentPath c4wl (goJoin "app" (whiteout ++ "cfg")) } ∧
        diskBytes st2.disk (getContentPath c4wl (goJoin "app" (whiteout ++ "cfg"))) =
          some [] :=
  (c6_unlink_cases c4roLookup "app" { disk := c4disk, wl := some c4wl } "cfg" c4wl rfl).2.1
    (by decide) (by decide)

/-! ## Claim C7 -/

/-- C7 counterexample: unpacking a layer with digest sha256:ab in work
directory w leaves nothing at w/blobs/sha256/ab.meta; the entry list is
persisted at w/blobs/sha256/ab instead. -/
theorem c7_counterexample :
    (unpackLayer cHash "w" ⟨"sha256", "ab"⟩ [] emptyDisk).disk "w/blobs/sha256/ab.meta" = none ∧
    (unpackLayer cHash "w" ⟨"sha256", "ab"⟩ [] emptyDisk).disk "w/blobs/sha256/ab" =
      some (.meta []) := by
  refine ⟨by decide, by decide⟩

/-- C7 amended: unpacking persists the entry list at blobPath of the layer
digest itself (no .meta suffix), and the persist step is one direct
write to that final path: every other path is exactly as extractTar left
it, so no temporary metadata file and no rename are involved. -/
theorem c7_persist_direct (hash : List Nat → String) (sp : String) (lh : Digest)
    (recs : List TarRecord) (disk : Disk) :
    (unpackLayer hash sp lh recs disk).disk (blobPath sp lh) =
      some (.meta (unpackLayer hash sp lh recs disk).files) ∧
    ∀ q, q ≠ blobPath sp lh →
      (unpackLayer hash sp lh recs disk).disk q = (extractTar hash sp recs disk).disk q := by
  constructor
  · simp [unpackLayer, diskSet]
  · intro q hq
    simp [unpackLayer, diskSet, hq]

/-- C7 witness: the amended statement at a concrete empty layer in work
directory w, with the untouched path instantiated to the .meta name the
original claim expected. -/
theorem c7_witness :
    (unpackLayer cHash "w" ⟨"sha256", "ab"⟩ [] emptyDisk).disk (blobPath "w" ⟨"sha256", "ab"⟩) =
      some (.meta (unpackLayer cHash "w" ⟨"sha256", "ab"⟩ [] emptyDisk).files) ∧
    (unpackLayer cHash "w" ⟨"sha256", "ab"⟩ [] emptyDisk).disk "w/blobs/sha256/ab.meta" =
      (extractTar cHash "w" [] emptyDisk).disk "w/blobs/sha256/ab.meta" :=
  ⟨(c7_persist_direct cHash "w" ⟨"sha256", "ab"⟩ [] emptyDisk).1,
   (c7_persist_direct cHash "w" ⟨"sha256", "ab"⟩ [] emptyDisk).2 "w/blobs/sha256/ab.meta"
     (by decide)⟩

/-! ## Claim C9 -/

theorem strMk_append (a b : List Char) : (⟨a⟩ : String) ++ (⟨b⟩ : String) = ⟨a ++ b⟩ := rfl

theorem strData_append (a b : String) : (a ++ b).data = a.data ++ b.data := rfl

theorem strStarts_exists {s pre : String} (h : strStarts s pre = true) :
    ∃ t : List Char, s.data = pre.data ++ t := by
  have h2 : pre.data <+: s.data := by
    rw [← List.isPrefixOf_iff_prefix]
    exact h
  obtain ⟨t, ht⟩ := h2
  exact ⟨t, ht.symm⟩

/-- C9 counterexample: ListChildren of the root (empty path) returns the
metadata entry stored for the root itself under the empty key (the entry
OnAdd creates), which is not a proper child of the root. -/
theorem c9_counterexample :
    listChildren [("", rootEntryFile)] "" = [rootEntryFile] ∧ rootEntryFile.hdr.name = "" := by
  refine ⟨by decide, rfl⟩

/-- C9 amended: for every non-empty directory path d without a trailing
slash, every entry ListChildren returns comes from a key of the form
d/rest with a slash-free rest, so it is a proper immediate child and in
particular the entry stored under the key d itself is never among them;
for the root (the empty path) this fails: the entry stored under the
empty key is returned, as the counterexample shows. -/
theorem c9_children_proper (files : List (String × File)) (d : String)
    (hd : d ≠ "") (hs : strEnds d "/" = false) :
    ∀ f ∈ listChildren files d, ∃ rest : String,
      (d ++ "/" ++ rest, f) ∈ files ∧ containsSlash rest = false ∧ d ++ "/" ++ rest ≠ d := by
  intro f hf
  have hdp : (if d ≠ "" ∧ ¬ strEnds d "/" = true then d ++ "/" else d) = d ++ "/" := by
    simp [hd, hs]
  simp only [listChildren, hdp] at hf
  rcases List.mem_filterMap.mp hf with ⟨kv, hkv, hcond⟩
  by_cases hc : strStarts kv.1 (d ++ "/") = true ∧ ¬ containsSlash (trimPfx kv.1 (d ++ "/")) = true
  case neg => rw [if_neg hc] at hcond; cases hcond
  case pos =>
    rw [if_pos hc] at hcond
    obtain ⟨hpre, hnsl⟩ := hc
    obtain ⟨t, ht⟩ := strStarts_exists hpre
    have hk : kv.1 = d ++ "/" ++ (⟨t⟩ : String) := by
      have : kv.1 = (⟨kv.1.data⟩ : String) := rfl
      rw [this, ht]
      rfl
    have htrim : trimPfx kv.1 (d ++ "/") = (⟨t⟩ : String) := by
      simp only [trimPfx, hpre, if_true]
      congr 1
      rw [ht]
      exact List.drop_left _ _
    refine ⟨⟨t⟩, ?_, ?_, ?_⟩
    · have hf2 : f = kv.2 := (Option.some.inj hcond).symm
      rw [hf2, ← hk]
      exact hkv
    · rw [← htrim]
      simpa using hnsl
    · intro he
      have hlen := congrArg (fun s : String => s.data.length) he
      simp only [strData_append, List.length_append] at hlen
      have hone : "/".data.length = 1 := rfl
      rw [hone] at hlen
      omega

/-- C9 witness: the amended statement applied to a map holding the key a/b
and the directory a. -/
theorem c9_witness :
    ∃ rest : String,
      ("a" ++ "/" ++ rest, regEntry "a/b" "pb") ∈ [("a/b", regEntry "a/b" "pb")] ∧
      containsSlash rest = false ∧ "a" ++ "/" ++ rest ≠ "a" :=
  c9_children_proper [("a/b", regEntry "a/b" "pb")] "a" (by decide) (by decide)
    (regEntry "a/b" "pb") (by decide)

/-! ## Claim C10 -/

/-- C10 counterexample: mounting the single-layer image with entry
.wh.d/f (no writable layer) makes readdir of the root emit the implicit
directory .wh.d, whose base name begins with .wh. . -/
theorem c10_counterexample :
    c10Root.readdir = [⟨".wh.d", sIFDIR⟩] ∧ strStarts ".wh.d" whiteout = true := by
  refine ⟨by decide, by decide⟩

theorem roFileStep_pred (pre : String) (m : List (String × DirEnt)) (kv : String × File)
    (hname : strStarts kv.1 pre = true → containsSlash (trimPfx kv.1 pre) = false →
      strStarts (trimPfx kv.1 pre) whiteout = false)
    (hm : ∀ p ∈ m, strStarts p.2.name whiteout = false) :
    ∀ p ∈ roFileStep pre m kv, strStarts p.2.name whiteout = false := by
  intro p hp
  simp only [roFileStep] at hp
  by_cases h1 : strStarts kv.1 pre = true
  · rw [if_pos h1] at hp
    by_cases h2 : containsSlash (trimPfx kv.1 pre) = true
    · rw [if_pos h2] at hp
      exact hm p hp
    · rw [if_neg h2] at hp
      rcases mem_alSet hp with hp1 | hp1
      · rw [hp1]
        exact hname h1 (by simpa using h2)
      · exact hm p hp1
  · rw [if_neg h1] at hp
    exact hm p hp

theorem roDirStep_pred (pre : String) (m : List (String × DirEnt)) (q : String)
    (hname : strStarts q pre = true → containsSlash (trimPfx q pre) = false →
      strStarts (trimPfx q pre) whiteout = false)
    (hm : ∀ p ∈ m, strStarts p.2.name whiteout = false) :
    ∀ p ∈ roDirStep pre m q, strStarts p.2.name whiteout = false := by
  intro p hp
  simp only [roDirStep] at hp
  by_cases h1 : strStarts q pre = true
  · rw [if_pos h1] at hp
    by_cases h2 : trimPfx q pre ≠ "" ∧ ¬ containsSlash (trimPfx q pre) = true
    · rw [if_pos h2] at hp
      rcases mem_alSet hp with hp1 | hp1
      · rw [hp1]
        exact hname h1 (by simpa using h2.2)
      · exact hm p hp1
    · rw [if_neg h2] at hp
      exact hm p hp
  · rw [if_neg h1] at hp
    exact hm p hp

theorem wlChildStep_pred (m : List (String × DirEnt)) (f : File)
    (hm : ∀ p ∈ m, strStarts p.2.name whiteout = false) :
    ∀ p ∈ wlChildStep m f, strStarts p.2.name whiteout = false := by
  intro p hp
  simp only [wlChildStep] at hp
  by_cases h1 : strStarts (goBase f.hdr.name) whiteout = true
  · rw [if_pos h1] at hp
    exact hm p (mem_alDel hp)
  · rw [if_neg h1] at hp
    rcases mem_alSet hp with hp1 | hp1
    · rw [hp1]
      simpa using h1
    · exact hm p hp1

/-- C10 amended: readdir emits no base name beginning with .wh. provided
that no immediate-child name contributed by the read-only view or the
extra directories at this node begins with .wh.; the writable layer can
never introduce such a name whatever its state, since its .wh. entries
only delete names from the merge.  The proviso is forced by the
counterexample: a union-view entry with a .wh. component in a non-final
position surfaces it through the implicit-directory set. -/
theorem c10_readdir_whiteout_free (od : DirNode) (wlKids : List File)
    (h1 : ∀ kv ∈ od.roLookup, strStarts kv.1 (readdirPre od) = true →
      containsSlash (trimPfx kv.1 (readdirPre od)) = false →
      strStarts (trimPfx kv.1 (readdirPre od)) whiteout = false)
    (h2 : ∀ p ∈ od.roDirs, strStarts p (readdirPre od) = true →
      containsSlash (trimPfx p (readdirPre od)) = false →
      strStarts (trimPfx p (readdirPre od)) whiteout = false)
    (h3 : ∀ p ∈ od.extraDirs, strStarts p (readdirPre od) = true →
      containsSlash (trimPfx p (readdirPre od)) = false →
      strStarts (trimPfx p (readdirPre od)) whiteout = false) :
    ∀ e ∈ readdirWith od wlKids, strStarts e.name whiteout = false := by
  intro e he
  simp only [readdirWith] at he
  rcases List.mem_map.mp he with ⟨p, hp, hpe⟩
  have hbase : ∀ q ∈ od.roLookup.foldl (roFileStep (readdirPre od)) [],
      strStarts q.2.name whiteout = false :=
    foldl_pred (fun m => ∀ q ∈ m, strStarts q.2.name whiteout = false)
      (roFileStep (readdirPre od)) od.roLookup []
      (fun m kv hkv hm => roFileStep_pred (readdirPre od) m kv (h1 kv hkv) hm)
      (fun q hq => absurd hq (List.not_mem_nil q))
  have hdirs : ∀ q ∈ od.roDirs.foldl (roDirStep (readdirPre od))
      (od.roLookup.foldl (roFileStep (readdirPre od)) []),
      strStarts q.2.name whiteout = false :=
    foldl_pred (fun m => ∀ q ∈ m, strStarts q.2.name whiteout = false)
      (roDirStep (readdirPre od)) od.roDirs _
      (fun m q hq hm => roDirStep_pred (readdirPre od) m q (h2 q hq) hm) hbase
  have hextra : ∀ q ∈ od.extraDirs.foldl (roDirStep (readdirPre od))
      (od.roDirs.foldl (roDirStep (readdirPre od))
        (od.roLookup.foldl (roFileStep (readdirPre od)) [])),
      strStarts q.2.name whiteout = false :=
    foldl_pred (fun m => ∀ q ∈ m, strStarts q.2.name whiteout = false)
      (roDirStep (readdirPre od)) od.extraDirs _
      (fun m q hq hm => roDirStep_pred (readdirPre od) m q (h3 q hq) hm) hdirs
  have hall : ∀ q ∈ wlKids.foldl wlChildStep
      (od.extraDirs.foldl (roDirStep (readdirPre od))
        (od.roDirs.foldl (roDirStep (readdirPre od))
          (od.roLookup.foldl (roFileStep (readdirPre od)) []))),
      strStarts q.2.name whiteout = false :=
    foldl_pred (fun m => ∀ q ∈ m, strStarts q.2.name whiteout = false)
      wlChildStep wlKids _
      (fun m f _ hm => wlChildStep_pred m f hm) hextra
  rw [← hpe]
  exact hall p hp

/-- C10 witness: on a node with one read-only file x and writable children
consisting of a whiteout of x and a new file y, the emitted name y is
whiteout-free. -/
theorem c10_witness : strStarts "y" whiteout = false :=
  c10_readdir_whiteout_free c10wRoot c10wKids (by decide) (by decide) (by decide)
    ⟨"y", 0⟩ (by decide)

end Ocifs
